import Mathlib

/-!
A shallow embedding of the UM-32 interpreter (`src/main.rs`, `src/mem.rs`).

Machine words are `Nat` with explicit `% 2 ^ 32` where the Rust code wraps.
Fallible operations (Rust `panic!`) return `Option`; `none` is a fatal stop.
-/

set_option maxRecDepth 4000

namespace UM

/-- The segmented store (`Mem` in `src/mem.rs`). `data` is the vector of array
slots (`none` marks a freed slot, as `Option<Box<[u32]>>` does in the source);
`free_pq` models the `BinaryHeap<Reverse<u32>>` of retired IDs as the list of
its elements (a multiset: the heap's internal order is unobservable, `pop`
removes the minimum). -/
structure Mem where
  data : List (Option (List Nat))
  free_pq : List Nat
deriving Repr, DecidableEq

/-- `BinaryHeap<Reverse<u32>>::pop`: remove and return the minimum element. -/
def popMin (l : List Nat) : Option (Nat × List Nat) :=
  match l.min? with
  | none => none
  | some m => some (m, l.erase m)

/-- `Mem::new`. -/
def Mem.new : Mem := ⟨[], []⟩

/-- `Mem::init`. -/
def Mem.init (prog : List Nat) : Mem := ⟨[some prog], []⟩

/-- `Mem::len`: `self.data.len() as u32`. -/
def Mem.len (m : Mem) : Nat := m.data.length % 2 ^ 32

/-- `Mem::copy_to_zero`: replace slot 0 with a clone of slot `addr`;
fatal when `addr` is freed or was never allocated. -/
def Mem.copy_to_zero (m : Mem) (addr : Nat) : Option Mem :=
  match m.data[addr]? with
  | some (some v) => some { m with data := m.data.set 0 (some v) }
  | some none => none
  | none => none

/-- `Mem::alloc`: reuse the smallest retired ID if any, else check
`len() == u32::MAX`, push a zero-filled array and return `len() - 1`. -/
def Mem.alloc (m : Mem) (size : Nat) : Option (Nat × Mem) :=
  match popMin m.free_pq with
  | some (addr, pq) =>
      some (addr, { data := m.data.set addr (some (List.replicate size 0)), free_pq := pq })
  | none =>
      if m.len = 2 ^ 32 - 1 then none
      else
        let d := m.data ++ [some (List.replicate size 0)]
        some (d.length % 2 ^ 32 - 1, { data := d, free_pq := m.free_pq })

/-- `Mem::free`: fatal on ID 0, on a freed slot and on a never-allocated slot;
otherwise clears the slot and pushes the ID on the retired pool. -/
def Mem.free (m : Mem) (addr : Nat) : Option Mem :=
  if addr = 0 then none
  else
    match m.data[addr]? with
    | some (some _) => some { data := m.data.set addr none, free_pq := addr :: m.free_pq }
    | some none => none
    | none => none

/-- `Mem::free2`: like `Mem::free` but written with `unwrap_or_else` chains in
the source — and without the `addr == 0` check. -/
def Mem.free2 (m : Mem) (addr : Nat) : Option Mem :=
  match m.data[addr]? with
  | none => none
  | some none => none
  | some (some _) => some { data := m.data.set addr none, free_pq := addr :: m.free_pq }

/-- `Mem::read`: the word at `data[addr][offset]`; fatal when the slot is
freed, never allocated, or the offset is out of bounds. -/
def Mem.read (m : Mem) (addr offset : Nat) : Option Nat :=
  match m.data[addr]? with
  | some (some v) => v[offset]?
  | some none => none
  | none => none

/-- `Mem::read2`: the same checks as `Mem::read`, written as an
`unwrap_or_else` chain in the source. -/
def Mem.read2 (m : Mem) (addr offset : Nat) : Option Nat :=
  ((m.data[addr]?).bind id).bind fun block => block[offset]?

/-- `Mem::write`. -/
def Mem.write (m : Mem) (addr offset val : Nat) : Option Mem :=
  match m.data[addr]? with
  | some (some v) =>
      if offset < v.length then
        some { m with data := m.data.set addr (some (v.set offset val)) }
      else none
  | some none => none
  | none => none

/-- `Mem::write2`: the same checks as `Mem::write`, written as an
`unwrap_or_else` chain in the source. -/
def Mem.write2 (m : Mem) (addr offset val : Nat) : Option Mem :=
  ((m.data[addr]?).bind id).bind fun block =>
    if offset < block.length then
      some { m with data := m.data.set addr (some (block.set offset val)) }
    else none

/-- The decoded instruction (`enum Op` in `src/main.rs`). -/
inductive Op where
  | condMov (a b c : Nat)
  | memRead (a b c : Nat)
  | memWrite (a b c : Nat)
  | add (a b c : Nat)
  | mul (a b c : Nat)
  | div (a b c : Nat)
  | nand (a b c : Nat)
  | halt
  | alloc (b c : Nat)
  | free (c : Nat)
  | output (c : Nat)
  | input (c : Nat)
  | loadProgram (b c : Nat)
  | mov (a v : Nat)
deriving Repr, DecidableEq

/-- `Op::parse`: opcode from `v >> 28`, standard operands from masked shifts,
opcode 13 re-extracts `a` from bits 27..25 with a 25-bit immediate; any other
opcode (14 or 15) is fatal. -/
def Op.parse (v : Nat) : Option Op :=
  let code := v >>> 28
  let a := (v &&& 0b111000000) >>> 6
  let b := (v &&& 0b111000) >>> 3
  let c := v &&& 0b111
  match code with
  | 0 => some (.condMov a b c)
  | 1 => some (.memRead a b c)
  | 2 => some (.memWrite a b c)
  | 3 => some (.add a b c)
  | 4 => some (.mul a b c)
  | 5 => some (.div a b c)
  | 6 => some (.nand a b c)
  | 7 => some .halt
  | 8 => some (.alloc b c)
  | 9 => some (.free c)
  | 10 => some (.output c)
  | 11 => some (.input c)
  | 12 => some (.loadProgram b c)
  | 13 => some (.mov ((v >>> 25) &&& 0b111) (v &&& 0x01FFFFFF))
  | _ => none

/-- `BufRead::read_line` at the byte level: split off the first line of the
stream, up to and including the first newline byte (10), or everything when no
newline remains. -/
def readLineBytes : List Nat → List Nat × List Nat
  | [] => ([], [])
  | b :: rest =>
      if b = 10 then ([10], rest)
      else
        let p := readLineBytes rest
        (b :: p.1, p.2)

/-- UTF-8 decoding of a byte list into Unicode scalar values, as Rust's
`String` validation performs it inside `read_line`; `none` on an invalid
sequence (where `read_line(..).unwrap()` panics). -/
def utf8Decode : List Nat → Option (List Nat)
  | [] => some []
  | b0 :: rest =>
      if b0 < 0x80 then (utf8Decode rest).map fun cs => b0 :: cs
      else if b0 < 0xC2 then none
      else if b0 < 0xE0 then
        match rest with
        | b1 :: r =>
            if 0x80 ≤ b1 ∧ b1 < 0xC0 then
              (utf8Decode r).map fun cs => ((b0 - 0xC0) * 0x40 + (b1 - 0x80)) :: cs
            else none
        | [] => none
      else if b0 < 0xF0 then
        match rest with
        | b1 :: b2 :: r =>
            if (0x80 ≤ b1 ∧ b1 < 0xC0) ∧ (0x80 ≤ b2 ∧ b2 < 0xC0) then
              let cp := (b0 - 0xE0) * 0x1000 + (b1 - 0x80) * 0x40 + (b2 - 0x80)
              if 0x800 ≤ cp ∧ ¬ (0xD800 ≤ cp ∧ cp < 0xE000) then
                (utf8Decode r).map fun cs => cp :: cs
              else none
            else none
        | _ => none
      else if b0 < 0xF5 then
        match rest with
        | b1 :: b2 :: b3 :: r =>
            if (0x80 ≤ b1 ∧ b1 < 0xC0) ∧ (0x80 ≤ b2 ∧ b2 < 0xC0) ∧ (0x80 ≤ b3 ∧ b3 < 0xC0) then
              let cp := (b0 - 0xF0) * 0x40000 + (b1 - 0x80) * 0x1000
                  + (b2 - 0x80) * 0x40 + (b3 - 0x80)
              if 0x10000 ≤ cp ∧ cp < 0x110000 then
                (utf8Decode r).map fun cs => cp :: cs
              else none
            else none
        | _ => none
      else none

/-- Whether the machine is still in its fetch-execute loop or has left it
normally (`break` in `Machine::run`). -/
inductive Status where
  | running
  | halted
deriving Repr, DecidableEq

/-- The interpreter state: registers, store, instruction pointer, the pending
line buffer (`input` in `Machine::run`), the external byte streams, and the
loop status. -/
structure MState where
  reg : List Nat
  mem : Mem
  ip : Nat
  buf : List Nat
  stdin : List Nat
  stdout : List Nat
  status : Status
deriving Repr, DecidableEq

/-- Advance the instruction pointer: `self.ip += 1` (u32 wrap-around). -/
def MState.adv (s : MState) : MState := { s with ip := (s.ip + 1) % 2 ^ 32 }

/-- The refill step of the `Input` arm: when the line buffer is empty, read
and decode one line from stdin (`none` when `read_line` fails on invalid
UTF-8); returns the buffer contents and the remaining stream. -/
def refill (s : MState) : Option (List Nat × List Nat) :=
  if s.buf.isEmpty then
    let p := readLineBytes s.stdin
    match utf8Decode p.1 with
    | none => none
    | some cs => some (cs, p.2)
  else some (s.buf, s.stdin)

/-- One iteration of the fetch-decode-execute loop in `Machine::run`.
`none` is a fatal stop (a Rust `panic!`); a `some` result carries the next
state, whose status is `halted` exactly when the loop `break`s. -/
def step (s : MState) : Option MState :=
  (s.mem.read 0 s.ip).bind fun w =>
  (Op.parse w).bind fun op =>
      match op with
      | .condMov a b c =>
          some (MState.adv
            (if s.reg.getD c 0 ≠ 0 then { s with reg := s.reg.set a (s.reg.getD b 0) } else s))
      | .memRead a b c =>
          match s.mem.read (s.reg.getD b 0) (s.reg.getD c 0) with
          | none => none
          | some v => some (MState.adv { s with reg := s.reg.set a v })
      | .memWrite a b c =>
          match s.mem.write (s.reg.getD a 0) (s.reg.getD b 0) (s.reg.getD c 0) with
          | none => none
          | some m => some (MState.adv { s with mem := m })
      | .add a b c =>
          some (MState.adv
            { s with reg := s.reg.set a ((s.reg.getD b 0 + s.reg.getD c 0) % 2 ^ 32) })
      | .mul a b c =>
          some (MState.adv
            { s with reg := s.reg.set a ((s.reg.getD b 0 * s.reg.getD c 0) % 2 ^ 32) })
      | .div a b c =>
          if s.reg.getD c 0 = 0 then none
          else some (MState.adv { s with reg := s.reg.set a (s.reg.getD b 0 / s.reg.getD c 0) })
      | .nand a b c =>
          some (MState.adv
            { s with reg := s.reg.set a ((s.reg.getD b 0 &&& s.reg.getD c 0) ^^^ (2 ^ 32 - 1)) })
      | .halt => some { s with status := .halted }
      | .alloc b c =>
          match s.mem.alloc (s.reg.getD c 0) with
          | none => none
          | some (id, m) => some (MState.adv { s with reg := s.reg.set b id, mem := m })
      | .free c =>
          match s.mem.free (s.reg.getD c 0) with
          | none => none
          | some m => some (MState.adv { s with mem := m })
      | .output c =>
          if s.reg.getD c 0 > 255 then none
          else some (MState.adv { s with stdout := s.stdout ++ [s.reg.getD c 0] })
      | .input c =>
          match refill s with
          | none => none
          | some (buf1, stdin1) =>
            match buf1 with
            | [] =>
                some { s with buf := [], stdin := stdin1,
                              stdout := s.stdout ++ [10], status := .halted }
            | ch :: t =>
                some (MState.adv { s with reg := s.reg.set c ch, buf := t, stdin := stdin1 })
      | .loadProgram b c =>
          match s.mem.copy_to_zero (s.reg.getD b 0) with
          | none => none
          | some m => some { s with mem := m, ip := s.reg.getD c 0 }
      | .mov a v => some (MState.adv { s with reg := s.reg.set a v })

/-! Helper lemmas about bit extraction and the retired-ID pool. -/

theorem and_div_pow (a b k : Nat) : (a &&& b) / 2 ^ k = a / 2 ^ k &&& b / 2 ^ k := by
  induction k with
  | zero => simp
  | succ k ih =>
      rw [pow_succ, ← Nat.div_div_eq_div_mul, ih, Nat.and_div_two,
        Nat.div_div_eq_div_mul, Nat.div_div_eq_div_mul, ← pow_succ]

theorem and_shift (w m k n : Nat) (hm : m = (2 ^ n - 1) * 2 ^ k) :
    (w &&& m) >>> k = w / 2 ^ k % 2 ^ n := by
  rw [Nat.shiftRight_eq_div_pow, and_div_pow, hm, Nat.mul_div_cancel _ (Nat.two_pow_pos k),
    Nat.and_pow_two_sub_one_eq_mod]

theorem popMin_eq_some (l : List Nat) (a : Nat) (l' : List Nat)
    (h : popMin l = some (a, l')) : a ∈ l ∧ ∀ x ∈ l, a ≤ x := by
  unfold popMin at h
  rcases hm : l.min? with _ | mn
  · rw [hm] at h; exact absurd h (by simp)
  · rw [hm] at h
    have hmn : mn = a := congrArg Prod.fst (Option.some.inj h)
    rw [← hmn]
    refine ⟨List.min?_mem (fun a b => min_choice a b) hm, ?_⟩
    intro x hx
    exact (List.le_min?_iff (fun a b c => le_min_iff) hm).mp (Nat.le_refl mn) x hx

theorem popMin_isSome (l : List Nat) (hne : l ≠ []) : ∃ p, popMin l = some p := by
  unfold popMin
  rcases hm : l.min? with _ | mn
  · exact absurd (List.min?_eq_none_iff.mp hm) hne
  · exact ⟨(mn, l.erase mn), rfl⟩

/-! The claims. -/

/-- C2: `alloc` returns the numerically smallest retired ID when the pool is
non-empty (and then always succeeds), and otherwise the ID it returns equals
the current store size, the count of ever-issued IDs. The reachable-state
bound `data.length < 2 ^ 32` discharges the `as u32` cast in `Mem::len`. -/
theorem c2_alloc_id_policy (m : Mem) (size : Nat) (hlen : m.data.length < 2 ^ 32) :
    (∀ id m', m.alloc size = some (id, m') →
        (m.free_pq ≠ [] → id ∈ m.free_pq ∧ ∀ x ∈ m.free_pq, id ≤ x) ∧
        (m.free_pq = [] → id = m.data.length)) ∧
    (m.free_pq ≠ [] → ∃ p, m.alloc size = some p) := by
  constructor
  · intro id m' h
    unfold Mem.alloc at h
    rcases hp : popMin m.free_pq with _ | p
    · rw [hp] at h
      have hpool : m.free_pq = [] := by
        by_contra hne
        obtain ⟨q, hq⟩ := popMin_isSome m.free_pq hne
        rw [hp] at hq; exact absurd hq (by simp)
      refine ⟨fun hne => absurd hpool hne, fun _ => ?_⟩
      rcases hcond : decide (m.len = 2 ^ 32 - 1) with _ | _
      · rw [if_neg (of_decide_eq_false hcond)] at h
        have hid : (m.data ++ [some (List.replicate size 0)]).length % 2 ^ 32 - 1 = id :=
          congrArg Prod.fst (Option.some.inj h)
        have hcond' : ¬ m.data.length % 2 ^ 32 = 2 ^ 32 - 1 := by
          have := of_decide_eq_false hcond
          simpa [Mem.len] using this
        rw [List.length_append, List.length_singleton] at hid
        omega
      · rw [if_pos (of_decide_eq_true hcond)] at h
        exact absurd h (by simp)
    · rw [hp] at h
      obtain ⟨hmem, hmin⟩ := popMin_eq_some m.free_pq p.1 p.2 (by rw [hp])
      have hid : p.1 = id := congrArg Prod.fst (Option.some.inj h)
      rw [hid] at hmem hmin
      refine ⟨fun _ => ⟨hmem, hmin⟩, fun hpool => ?_⟩
      rw [hpool] at hmem
      exact absurd hmem (by simp)
  · intro hne
    obtain ⟨p, hp⟩ := popMin_isSome m.free_pq hne
    exact ⟨_, by unfold Mem.alloc; rw [hp]⟩

/-- C2 witness: on a store with retired pool `{2, 1}`, `alloc` returns ID 1,
the pool minimum. -/
theorem c2_alloc_id_policy_witness :
    (Mem.mk [some [], none, none] [2, 1]).data.length < 2 ^ 32 ∧
    (Mem.mk [some [], none, none] [2, 1]).alloc 4 =
      some (1, Mem.mk [some [], some [0, 0, 0, 0], none] [2]) ∧
    (1 ∈ [2, 1] ∧ ∀ x ∈ ([2, 1] : List Nat), 1 ≤ x) := by
  refine ⟨by norm_num, by decide, ?_⟩
  exact ((c2_alloc_id_policy (Mem.mk [some [], none, none] [2, 1]) 4 (by norm_num)).1
    1 (Mem.mk [some [], some [0, 0, 0, 0], none] [2]) (by decide)).1 (by decide)

/-- C4 (amended): with an empty retired pool, `alloc` is fatal exactly when
the store size has reached `2 ^ 32 - 1` (the source checks
`self.len() == u32::MAX`), not `2 ^ 32`. -/
theorem c4_alloc_exhaustion (m : Mem) (size : Nat)
    (hpool : m.free_pq = []) (hlen : m.data.length < 2 ^ 32) :
    m.alloc size = none ↔ m.data.length = 2 ^ 32 - 1 := by
  unfold Mem.alloc popMin
  rw [hpool]
  simp only [List.min?_nil, Mem.len, Nat.mod_eq_of_lt hlen]
  rcases eq_or_ne m.data.length (2 ^ 32 - 1) with h | h
  · simp [h]
  · simp [h]

/-- A store of `2 ^ 32 - 1` slots with an empty pool makes `alloc` fatal. -/
theorem alloc_of_full (m : Mem) (size : Nat) (hpool : m.free_pq = [])
    (hlen : m.data.length = 2 ^ 32 - 1) : m.alloc size = none := by
  have hl : m.len = 2 ^ 32 - 1 := by
    unfold Mem.len
    rw [hlen]
    norm_num
  simp [Mem.alloc, popMin, hpool, hl]

/-- C4 counterexample: a store holding `2 ^ 32 - 1` arrays — fewer than
`2 ^ 32` IDs ever issued — on which `alloc` with an empty pool is fatal,
against the claim that it succeeds below `2 ^ 32`. -/
theorem c4_alloc_exhaustion_counterexample :
    (Mem.mk (some [] :: List.replicate (2 ^ 32 - 2) none) []).data.length < 2 ^ 32 ∧
    (Mem.mk (some [] :: List.replicate (2 ^ 32 - 2) none) []).alloc 1 = none := by
  have hlen : (Mem.mk (some [] :: List.replicate (2 ^ 32 - 2) none) []).data.length
      = 2 ^ 32 - 1 := by
    show (some [] :: List.replicate (2 ^ 32 - 2) (none : Option (List Nat))).length = 2 ^ 32 - 1
    rw [List.length_cons, List.length_replicate]
    norm_num
  refine ⟨by rw [hlen]; norm_num, ?_⟩
  exact alloc_of_full _ 1 rfl hlen

/-- C4 witness: a small store with an empty pool is not exhausted, and
`alloc` indeed succeeds there. -/
theorem c4_alloc_exhaustion_witness :
    ([some []] : List (Option (List Nat))).length < 2 ^ 32 ∧
    ¬ (Mem.mk [some []] []).alloc 2 = none := by
  refine ⟨by norm_num, ?_⟩
  rw [c4_alloc_exhaustion (Mem.mk [some []] []) 2 rfl (by norm_num)]
  norm_num

/-- C7: every successful allocation installs a zero-filled array of exactly
the requested size, whether the ID is reused from the pool or fresh. The two
hypotheses are reachable-state invariants: pool IDs index into the store, and
the store has not outgrown the 32-bit ID space. -/
theorem c7_alloc_zero_fill (m : Mem) (size id : Nat) (m' : Mem)
    (hpq : ∀ x ∈ m.free_pq, x < m.data.length) (hlen : m.data.length < 2 ^ 32)
    (halloc : m.alloc size = some (id, m')) :
    m'.data[id]? = some (some (List.replicate size 0)) ∧
    (List.replicate size (0 : Nat)).length = size ∧
    ∀ k < size, m'.read id k = some 0 := by
  have hslot : m'.data[id]? = some (some (List.replicate size 0)) := by
    unfold Mem.alloc at halloc
    rcases hp : popMin m.free_pq with _ | p
    · rw [hp] at halloc
      rcases hcond : decide (m.len = 2 ^ 32 - 1) with _ | _
      · rw [if_neg (of_decide_eq_false hcond)] at halloc
        have hcond' : ¬ m.data.length % 2 ^ 32 = 2 ^ 32 - 1 := by
          have := of_decide_eq_false hcond
          simpa [Mem.len] using this
        have hid : (m.data ++ [some (List.replicate size 0)]).length % 2 ^ 32 - 1 = id :=
          congrArg Prod.fst (Option.some.inj halloc)
        have hm' : m' = Mem.mk (m.data ++ [some (List.replicate size 0)]) m.free_pq :=
          (congrArg Prod.snd (Option.some.inj halloc)).symm
        rw [List.length_append, List.length_singleton] at hid
        have hid' : id = m.data.length := by omega
        rw [hm', hid']
        exact List.getElem?_concat_length m.data (some (List.replicate size 0))
      · rw [if_pos (of_decide_eq_true hcond)] at halloc
        exact absurd halloc (by simp)
    · rw [hp] at halloc
      obtain ⟨hmem, -⟩ := popMin_eq_some m.free_pq p.1 p.2 (by rw [hp])
      have hid : p.1 = id := congrArg Prod.fst (Option.some.inj halloc)
      have hm' : m' = Mem.mk (m.data.set p.1 (some (List.replicate size 0))) p.2 :=
        (congrArg Prod.snd (Option.some.inj halloc)).symm
      rw [hm', ← hid]
      exact List.getElem?_set_self (hpq p.1 hmem)
  refine ⟨hslot, List.length_replicate size 0, fun k hk => ?_⟩
  simp only [Mem.read, hslot]
  exact List.getElem?_replicate_of_lt hk

/-- C7 witness: allocating 3 words on a fresh program store yields ID 1
holding `[0, 0, 0]`, and reading each offset yields 0. -/
theorem c7_alloc_zero_fill_witness :
    (Mem.mk [some [9]] []).alloc 3 = some (1, Mem.mk [some [9], some [0, 0, 0]] []) ∧
    (Mem.mk [some [9], some [0, 0, 0]] []).data[1]? = some (some (List.replicate 3 0)) ∧
    (List.replicate 3 (0 : Nat)).length = 3 ∧
    ∀ k < 3, (Mem.mk [some [9], some [0, 0, 0]] []).read 1 k = some 0 := by
  refine ⟨by decide, ?_⟩
  exact c7_alloc_zero_fill (Mem.mk [some [9]] []) 3 1 (Mem.mk [some [9], some [0, 0, 0]] [])
    (by simp) (by norm_num) (by decide)

/-- C10 (amended): `read2`/`write2` agree everywhere with `read`/`write`, and
`free2` agrees with `free` on every non-zero ID; but `free2` omits the ID-0
check: `free 0` is always fatal, while `free2 0` succeeds whenever array 0 is
live. -/
theorem c10_redundant_variants :
    (∀ (m : Mem) (a o : Nat), m.read2 a o = m.read a o) ∧
    (∀ (m : Mem) (a o v : Nat), m.write2 a o v = m.write a o v) ∧
    (∀ (m : Mem) (a : Nat), a ≠ 0 → m.free2 a = m.free a) ∧
    (∀ m : Mem, m.free 0 = none) ∧
    (∀ (m : Mem) (arr : List Nat), m.data[0]? = some (some arr) → m.free2 0 ≠ none) := by
  refine ⟨fun m a o => ?_, fun m a o v => ?_, fun m a ha => ?_, fun m => ?_, fun m arr h => ?_⟩
  · unfold Mem.read2 Mem.read
    rcases m.data[a]? with _ | _ | _ <;> rfl
  · unfold Mem.write2 Mem.write
    rcases m.data[a]? with _ | _ | _ <;> rfl
  · unfold Mem.free2 Mem.free
    rw [if_neg ha]
    rcases m.data[a]? with _ | _ | _ <;> rfl
  · unfold Mem.free
    rw [if_pos rfl]
  · unfold Mem.free2
    rw [h]
    simp

/-- C10 counterexample: on a store whose array 0 is live, `free 0` is fatal
but `free2 0` succeeds, so the variants are not equivalent. -/
theorem c10_redundant_variants_counterexample :
    (Mem.init [7]).free 0 = none ∧
    (Mem.init [7]).free2 0 = some (Mem.mk [none] [0]) := by
  constructor <;> decide

/-- The instruction layout as §4.2/§4.3 of the spec state it, written with
division and remainder: opcode = bits 31..28; in the standard form
A = bits 8..6, B = bits 5..3, C = bits 2..0; opcode 13 takes A from
bits 27..25 and a 25-bit immediate from bits 24..0; opcodes 14 and 15 decode
to the fatal marker. -/
def decodeSpec (w : Nat) : Option Op :=
  let code := w / 2 ^ 28
  let a := w / 2 ^ 6 % 8
  let b := w / 2 ^ 3 % 8
  let c := w % 8
  if code = 0 then some (.condMov a b c)
  else if code = 1 then some (.memRead a b c)
  else if code = 2 then some (.memWrite a b c)
  else if code = 3 then some (.add a b c)
  else if code = 4 then some (.mul a b c)
  else if code = 5 then some (.div a b c)
  else if code = 6 then some (.nand a b c)
  else if code = 7 then some .halt
  else if code = 8 then some (.alloc b c)
  else if code = 9 then some (.free c)
  else if code = 10 then some (.output c)
  else if code = 11 then some (.input c)
  else if code = 12 then some (.loadProgram b c)
  else if code = 13 then some (.mov (w / 2 ^ 25 % 8) (w % 2 ^ 25))
  else none

/-- C6: on every 32-bit word the decoder is the pure function that extracts
the fields exactly as the spec lays them out, and decodes opcodes 14 and 15
to the fatal marker. -/
theorem c6_decoder_layout (w : Nat) (hw : w < 2 ^ 32) : Op.parse w = decodeSpec w := by
  have hcode : w >>> 28 = w / 2 ^ 28 := Nat.shiftRight_eq_div_pow w 28
  have ha : (w &&& 448) >>> 6 = w / 2 ^ 6 % 8 := by
    have := and_shift w 448 6 3 (by norm_num); norm_num at this ⊢; exact this
  have hb : (w &&& 56) >>> 3 = w / 2 ^ 3 % 8 := by
    have := and_shift w 56 3 3 (by norm_num); norm_num at this ⊢; exact this
  have hc : w &&& 7 = w % 8 := by
    have := Nat.and_pow_two_sub_one_eq_mod w 3; norm_num at this ⊢; exact this
  have hA : (w >>> 25) &&& 7 = w / 2 ^ 25 % 8 := by
    have h1 : w >>> 25 = w / 2 ^ 25 := Nat.shiftRight_eq_div_pow w 25
    have := Nat.and_pow_two_sub_one_eq_mod (w / 2 ^ 25) 3
    rw [h1]; norm_num at this ⊢; exact this
  have hval : w &&& 33554431 = w % 2 ^ 25 := Nat.and_pow_two_sub_one_eq_mod w 25
  have hcases : w / 2 ^ 28 = 0 ∨ w / 2 ^ 28 = 1 ∨ w / 2 ^ 28 = 2 ∨ w / 2 ^ 28 = 3 ∨
      w / 2 ^ 28 = 4 ∨ w / 2 ^ 28 = 5 ∨ w / 2 ^ 28 = 6 ∨ w / 2 ^ 28 = 7 ∨
      w / 2 ^ 28 = 8 ∨ w / 2 ^ 28 = 9 ∨ w / 2 ^ 28 = 10 ∨ w / 2 ^ 28 = 11 ∨
      w / 2 ^ 28 = 12 ∨ w / 2 ^ 28 = 13 ∨ w / 2 ^ 28 = 14 ∨ w / 2 ^ 28 = 15 := by omega
  simp only [Op.parse, decodeSpec, hcode, ha, hb, hc, hA, hval]
  rcases hcases with h|h|h|h|h|h|h|h|h|h|h|h|h|h|h|h <;> rw [h] <;> rfl

/-- C6 witness: the Orthography word from the spec's Print-A scenario decodes
as the layout prescribes, to `mov 0 65`. -/
theorem c6_decoder_layout_witness :
    (0xD0000041 : Nat) < 2 ^ 32 ∧
    Op.parse 0xD0000041 = decodeSpec 0xD0000041 ∧
    decodeSpec 0xD0000041 = some (Op.mov 0 65) :=
  ⟨by norm_num, c6_decoder_layout 0xD0000041 (by norm_num), by decide⟩

/-- C1 (amended): when `Input` executes with an empty line buffer and stdin
at EOF, the machine prints a newline and terminates normally; the operand
register is not modified. -/
theorem c1_input_eof_halts (s : MState) (w c : Nat)
    (hfetch : s.mem.read 0 s.ip = some w)
    (hparse : Op.parse w = some (.input c))
    (hbuf : s.buf = []) (hin : s.stdin = []) :
    step s = some { s with buf := [], stdin := [],
                           stdout := s.stdout ++ [10], status := .halted } := by
  unfold step
  rw [hfetch]
  simp only [Option.some_bind]
  rw [hparse]
  simp only [Option.some_bind]
  unfold refill
  rw [hbuf, hin]
  rfl

/-- C1 counterexample: executing `Input` at EOF on a concrete machine
terminates the loop (status `halted`) with register C left at 0, instead of
setting it to `2 ^ 32 - 1` and continuing. -/
theorem c1_input_eof_halts_counterexample :
    step ⟨List.replicate 8 0, Mem.init [0xB0000000], 0, [], [], [], .running⟩ =
      some ⟨List.replicate 8 0, Mem.init [0xB0000000], 0, [], [], [10], .halted⟩ ∧
    Status.halted ≠ Status.running ∧
    (List.replicate 8 (0 : Nat)).getD 0 0 ≠ 2 ^ 32 - 1 := by
  refine ⟨by decide, by decide, by decide⟩

/-- C1 witness: the amended behavior on a concrete machine at EOF. -/
theorem c1_input_eof_halts_witness :
    (Mem.init [0xB0000000]).read 0 0 = some 0xB0000000 ∧
    Op.parse 0xB0000000 = some (Op.input 0) ∧
    step ⟨List.replicate 8 0, Mem.init [0xB0000000], 0, [], [], [], .running⟩ =
      some ⟨List.replicate 8 0, Mem.init [0xB0000000], 0, [], [], [10], .halted⟩ :=
  ⟨by decide, by decide,
    c1_input_eof_halts ⟨List.replicate 8 0, Mem.init [0xB0000000], 0, [], [], [], .running⟩
      0xB0000000 0 (by decide) (by decide) rfl rfl⟩

/-- C3: when opcode 12 executes and array `reg[B]` is live, array 0 becomes a
copy of it and the finger is set verbatim to `reg[C]`, with no increment;
when `reg[B]` is not live (freed or never allocated), the step is fatal. -/
theorem c3_load_program_finger (s : MState) (w b c : Nat)
    (hfetch : s.mem.read 0 s.ip = some w)
    (hparse : Op.parse w = some (.loadProgram b c)) :
    (∀ arr, s.mem.data[s.reg.getD b 0]? = some (some arr) →
        step s = some { s with
            mem := Mem.mk (s.mem.data.set 0 (some arr)) s.mem.free_pq,
            ip := s.reg.getD c 0 }) ∧
    ((s.mem.data[s.reg.getD b 0]?).bind id = none → step s = none) := by
  constructor
  · intro arr harr
    have hcopy : s.mem.copy_to_zero (s.reg.getD b 0) =
        some { s.mem with data := s.mem.data.set 0 (some arr) } := by
      unfold Mem.copy_to_zero
      rw [harr]
    unfold step
    rw [hfetch]
    simp only [Option.some_bind]
    rw [hparse]
    simp only [Option.some_bind, hcopy]
  · intro hdead
    have hcopy : s.mem.copy_to_zero (s.reg.getD b 0) = none := by
      unfold Mem.copy_to_zero
      rcases hslot : s.mem.data[s.reg.getD b 0]? with _ | o
      · rfl
      · rcases o with _ | arr
        · rfl
        · rw [hslot] at hdead
          exact absurd hdead (by simp)
    unfold step
    rw [hfetch]
    simp only [Option.some_bind]
    rw [hparse]
    simp only [Option.some_bind, hcopy]

/-- C3 witness: a concrete `LoadProgram` from live array 1 replaces array 0
and jumps to `reg[C] = 9`. -/
theorem c3_load_program_finger_witness :
    (Mem.mk [some [0xC000000A], some [7]] []).read 0 0 = some 0xC000000A ∧
    Op.parse 0xC000000A = some (Op.loadProgram 1 2) ∧
    step ⟨[0, 1, 9, 0, 0, 0, 0, 0], Mem.mk [some [0xC000000A], some [7]] [], 0,
          [], [], [], .running⟩ =
      some ⟨[0, 1, 9, 0, 0, 0, 0, 0], Mem.mk [some [7], some [7]] [], 9,
            [], [], [], .running⟩ :=
  ⟨by decide, by decide, by
    have h := (c3_load_program_finger
      ⟨[0, 1, 9, 0, 0, 0, 0, 0], Mem.mk [some [0xC000000A], some [7]] [], 0,
       [], [], [], .running⟩ 0xC000000A 1 2 (by decide) (by decide)).1 [7] (by decide)
    exact h⟩

/-- C5 (amended): a non-EOF `Input` consumes exactly one character of the
UTF-8-decoded, line-buffered stdin — refilling the buffer with the next
decoded line when it is empty — and sets register C to that character's
Unicode scalar value, which may exceed 255; it then advances the finger. -/
theorem c5_input_one_char (s : MState) (w c ch : Nat) (t rest : List Nat)
    (hfetch : s.mem.read 0 s.ip = some w)
    (hparse : Op.parse w = some (.input c))
    (hrefill : refill s = some (ch :: t, rest)) :
    step s = some { s with reg := s.reg.set c ch, buf := t, stdin := rest,
                           ip := (s.ip + 1) % 2 ^ 32 } := by
  unfold step
  rw [hfetch]
  simp only [Option.some_bind]
  rw [hparse]
  simp only [Option.some_bind, hrefill]
  rfl

/-- C5 counterexample: with the three UTF-8 bytes of the euro sign followed
by a newline on stdin, a single `Input` consumes all four bytes of the stream
into the line buffer and sets register C to code point 0x20AC, which is not a
byte value in 0..255. -/
theorem c5_input_one_char_counterexample :
    step ⟨List.replicate 8 0, Mem.init [0xB0000000], 0, [],
          [0xE2, 0x82, 0xAC, 10], [], .running⟩ =
      some ⟨[0x20AC, 0, 0, 0, 0, 0, 0, 0], Mem.init [0xB0000000], 1, [10],
            [], [], .running⟩ ∧
    255 < (0x20AC : Nat) :=
  ⟨by decide, by norm_num⟩

/-- C5 witness: the amended behavior on ASCII input `Q\n`. -/
theorem c5_input_one_char_witness :
    (Mem.init [0xB0000000]).read 0 0 = some 0xB0000000 ∧
    Op.parse 0xB0000000 = some (Op.input 0) ∧
    refill ⟨List.replicate 8 0, Mem.init [0xB0000000], 0, [], [81, 10], [], .running⟩ =
      some ([81, 10], []) ∧
    step ⟨List.replicate 8 0, Mem.init [0xB0000000], 0, [], [81, 10], [], .running⟩ =
      some ⟨[81, 0, 0, 0, 0, 0, 0, 0], Mem.init [0xB0000000], 1, [10], [], [], .running⟩ :=
  ⟨by decide, by decide, by decide, by
    have h := c5_input_one_char
      ⟨List.replicate 8 0, Mem.init [0xB0000000], 0, [], [81, 10], [], .running⟩
      0xB0000000 0 81 [10] [] (by decide) (by decide) (by decide)
    exact h⟩

/-- C8: with in-range register values, Addition and Multiplication store the
exact sum and product modulo `2 ^ 32`, Not-And stores the 32-bit bitwise
complement of the bitwise and, and each advances the finger by 1 modulo
`2 ^ 32`. -/
theorem c8_arithmetic_closure (s : MState) (w a b c : Nat)
    (hfetch : s.mem.read 0 s.ip = some w)
    (hb : s.reg.getD b 0 < 2 ^ 32) (hc : s.reg.getD c 0 < 2 ^ 32) :
    (Op.parse w = some (.add a b c) →
        step s = some { s with
            reg := s.reg.set a ((s.reg.getD b 0 + s.reg.getD c 0) % 2 ^ 32),
            ip := (s.ip + 1) % 2 ^ 32 }) ∧
    (Op.parse w = some (.mul a b c) →
        step s = some { s with
            reg := s.reg.set a ((s.reg.getD b 0 * s.reg.getD c 0) % 2 ^ 32),
            ip := (s.ip + 1) % 2 ^ 32 }) ∧
    (Op.parse w = some (.nand a b c) → ∃ r,
        step s = some { s with reg := s.reg.set a r, ip := (s.ip + 1) % 2 ^ 32 } ∧
        r < 2 ^ 32 ∧
        ∀ i < 32, r.testBit i = ! ((s.reg.getD b 0 &&& s.reg.getD c 0).testBit i)) := by
  refine ⟨fun hparse => ?_, fun hparse => ?_, fun hparse => ?_⟩
  · unfold step
    rw [hfetch]
    simp only [Option.some_bind]
    rw [hparse]
    simp only [Option.some_bind]
    rfl
  · unfold step
    rw [hfetch]
    simp only [Option.some_bind]
    rw [hparse]
    simp only [Option.some_bind]
    rfl
  · refine ⟨(s.reg.getD b 0 &&& s.reg.getD c 0) ^^^ (2 ^ 32 - 1), ?_, ?_, ?_⟩
    · unfold step
      rw [hfetch]
      simp only [Option.some_bind]
      rw [hparse]
      simp only [Option.some_bind]
      rfl
    · exact Nat.xor_lt_two_pow (Nat.and_lt_two_pow _ hc) (by norm_num)
    · intro i hi
      rw [Nat.testBit_xor, Nat.testBit_two_pow_sub_one]
      simp [hi]

/-- C8 witness: Addition at a concrete word `add 1 2 3` with `reg = [0,0,5,7,…]`
stores 12 and advances the finger to 1. -/
theorem c8_arithmetic_closure_witness :
    (Mem.init [0x30000053]).read 0 0 = some 0x30000053 ∧
    Op.parse 0x30000053 = some (Op.add 1 2 3) ∧
    step ⟨[0, 0, 5, 7, 0, 0, 0, 0], Mem.init [0x30000053], 0, [], [], [], .running⟩ =
      some ⟨[0, 12, 5, 7, 0, 0, 0, 0], Mem.init [0x30000053], 1, [], [], [], .running⟩ :=
  ⟨by decide, by decide, by
    have h := (c8_arithmetic_closure
      ⟨[0, 0, 5, 7, 0, 0, 0, 0], Mem.init [0x30000053], 0, [], [], [], .running⟩
      0x30000053 1 2 3 (by decide) (by decide) (by decide)).1 (by decide)
    exact h⟩

/-- C9: executing opcode 12 with `reg[B] = 0` while array 0 is live leaves the
observable contents of array 0 unchanged: every `read(0, k)` is the same
before and after the step. -/
theorem c9_self_load_identity (s : MState) (w b c : Nat) (arr0 : List Nat)
    (hfetch : s.mem.read 0 s.ip = some w)
    (hparse : Op.parse w = some (.loadProgram b c))
    (hb : s.reg.getD b 0 = 0)
    (h0 : s.mem.data[0]? = some (some arr0)) :
    ∃ s', step s = some s' ∧ ∀ k, s'.mem.read 0 k = s.mem.read 0 k := by
  have hlen : 0 < s.mem.data.length := (List.getElem?_eq_some_iff.mp h0).1
  have hcopy : s.mem.copy_to_zero (s.reg.getD b 0) =
      some { s.mem with data := s.mem.data.set 0 (some arr0) } := by
    unfold Mem.copy_to_zero
    rw [hb, h0]
  refine ⟨{ s with
              mem := Mem.mk (s.mem.data.set 0 (some arr0)) s.mem.free_pq,
              ip := s.reg.getD c 0 }, ?_, ?_⟩
  · unfold step
    rw [hfetch]
    simp only [Option.some_bind]
    rw [hparse]
    simp only [Option.some_bind, hcopy]
  intro k
  show Mem.read ⟨s.mem.data.set 0 (some arr0), s.mem.free_pq⟩ 0 k = s.mem.read 0 k
  unfold Mem.read
  rw [List.getElem?_set_self hlen, h0]

/-- C9 witness: a self-jump `LoadProgram` with `reg[B] = 0` on a concrete
machine preserves every read of array 0. -/
theorem c9_self_load_identity_witness :
    (Mem.init [0xC000000A]).read 0 0 = some 0xC000000A ∧
    Op.parse 0xC000000A = some (Op.loadProgram 1 2) ∧
    ([0, 0, 5, 0, 0, 0, 0, 0] : List Nat).getD 1 0 = 0 ∧
    (∃ s', step ⟨[0, 0, 5, 0, 0, 0, 0, 0], Mem.init [0xC000000A], 0, [], [], [], .running⟩ =
        some s' ∧
      ∀ k, s'.mem.read 0 k = (Mem.init [0xC000000A]).read 0 k) :=
  ⟨by decide, by decide, by decide,
    c9_self_load_identity
      ⟨[0, 0, 5, 0, 0, 0, 0, 0], Mem.init [0xC000000A], 0, [], [], [], .running⟩
      0xC000000A 1 2 [0xC000000A] (by decide) (by decide) (by decide) (by decide)⟩

/-- C10 witness: the equivalences applied at concrete inputs, including a
non-zero free on a live slot. -/
theorem c10_redundant_variants_witness :
    (Mem.mk [some [4], some [5]] []).read2 1 0 = (Mem.mk [some [4], some [5]] []).read 1 0 ∧
    (Mem.mk [some [4], some [5]] []).write2 1 0 9 = (Mem.mk [some [4], some [5]] []).write 1 0 9 ∧
    (Mem.mk [some [4], some [5]] []).free2 1 = (Mem.mk [some [4], some [5]] []).free 1 := by
  refine ⟨c10_redundant_variants.1 _ 1 0, c10_redundant_variants.2.1 _ 1 0 9, ?_⟩
  exact c10_redundant_variants.2.2.1 (Mem.mk [some [4], some [5]] []) 1 (by norm_num)

end UM
